import Mathlib

/-!
# Verification of the tcdd-dev real-time detection backend

Shallow embedding, in Lean 4, of the pure computational core of the C++
backend (`backend/cpp`): the detector post-processing and NMS pipeline
(`detector.cpp`), label loading, the HTTP request-line router
(`http_server.cpp`), the file-backed frame source (`camera.cpp`) and the
server/main startup interaction (`http_server.cpp` / `main.cpp`).

Modelling conventions:
* C `int` values are modelled as `ℤ` (no arithmetic here comes near 2^31).
* C `float`/`double` values are modelled as exact rationals `ℚ`; an IEEE-754
  division whose divisor is zero produces NaN or ±Inf, which is no real
  number, and is modelled as `none`.  A float comparison `x > t` is false
  when `x` is NaN, which the `Option` model reproduces.
* The cast `(int)` applied to a float truncates toward zero.
* `std::sort` produces an unspecified permutation that is sorted with respect
  to the comparator; the model picks insertion sort, one admissible outcome.
* Stateful methods become explicit state-passing functions; external inputs
  (the raw network tensor, wall-clock durations, socket outcomes, file
  frames) become function arguments.
-/

/-- Model of `cv::Rect` with integer fields, as used by `Detection::box` (detector.h). -/
structure Rect where
  x : ℤ
  y : ℤ
  width : ℤ
  height : ℤ
deriving DecidableEq, Repr

/-- The `Detection` record of detector.h.  `classId` is produced by the
argmax loop of `Detector::postprocess` and is always a non-negative index,
hence `ℕ`; `confidence` is a C float, modelled as `ℚ`. -/
structure Detection where
  classId : ℕ
  className : String
  confidence : ℚ
  box : Rect
deriving DecidableEq, Repr

/-- Truncation toward zero: the semantics of the C cast `(int)` applied to a
float value, the float being modelled as a rational. -/
def intTrunc (q : ℚ) : ℤ := if 0 ≤ q then ⌊q⌋ else ⌈q⌉

/-- Model of `std::max(lo, std::min(v, hi))`, the clamping pattern of
`Detector::postprocess` (detector.cpp lines 174-177). -/
def clampInt (v lo hi : ℤ) : ℤ := max lo (min v hi)

/-- The `intersectionArea` of `Detector::calculateIoU` (detector.cpp lines
228-233): corner coordinates of the intersection rectangle, negative spans
clipped to zero before multiplying. -/
def interArea (box1 box2 : Rect) : ℤ :=
  let x1 := max box1.x box2.x
  let y1 := max box1.y box2.y
  let x2 := min (box1.x + box1.width) (box2.x + box2.width)
  let y2 := min (box1.y + box1.height) (box2.y + box2.height)
  max 0 (x2 - x1) * max 0 (y2 - y1)

/-- The `unionArea` of `Detector::calculateIoU` (detector.cpp lines 234-236). -/
def unionArea (box1 box2 : Rect) : ℤ :=
  box1.width * box1.height + box2.width * box2.height - interArea box1 box2

/-- Model of `Detector::calculateIoU` (detector.cpp lines 227-239).  All arithmetic up
to the last line is C `int` arithmetic, modelled exactly on `ℤ`.  The final
`(float)intersectionArea / unionArea` is float division: when
`unionArea = 0` IEEE-754 yields NaN (`0/0`) or ±Inf, modelled `none`;
otherwise the exact quotient is returned. -/
def calculateIoU (box1 box2 : Rect) : Option ℚ :=
  if unionArea box1 box2 = 0 then none
  else some ((interArea box1 box2 : ℚ) / (unionArea box1 box2 : ℚ))

/-- The raw network output tensor `out` of `Detector::detect`: a matrix with
`numValues` rows (`out.h`) and `numProposals` columns (`out.w`), stored so
that the entry for proposal `i`, row `k` is `data (i + numProposals * k)`,
exactly as indexed by `Detector::postprocess`. -/
structure RawOut where
  numProposals : ℕ
  numValues : ℕ
  data : ℕ → ℚ

/-- The argmax loop of `Detector::postprocess` (detector.cpp lines 151-161):
the running pair `(bestClass, bestConf)` starts at `(0, 0)` and is replaced
whenever a strictly larger class score is seen. -/
def bestClassConf (output : RawOut) (i : ℕ) : ℕ × ℚ :=
  (List.range (output.numValues - 4)).foldl
    (fun best c =>
      let conf := output.data (i + output.numProposals * (4 + c))
      if best.2 < conf then (c, conf) else best)
    (0, 0)

/-- detector.cpp line 181: `classNames[bestClass]` when the index is in range,
otherwise `std::to_string(bestClass)`. -/
def classNameOf (classNames : List String) (c : ℕ) : String :=
  if h : c < classNames.length then classNames.get ⟨c, h⟩ else toString c

/-- Model of `Detector::postprocess` (detector.cpp lines 131-189).  `inputSize` is the
configured `(inputSize[0], inputSize[1])`; scale factors are float divisions
modelled as exact rationals; corner coordinates are truncated to `int` and
clamped to `[0, imgWidth-1] × [0, imgHeight-1]`; the box is stored in
corner+size form `(x1, y1, x2-x1, y2-y1)`. -/
def postprocess (inputSize : ℤ × ℤ) (confThreshold : ℚ) (classNames : List String)
    (output : RawOut) (imgWidth imgHeight : ℤ) : List Detection :=
  let scaleX : ℚ := (imgWidth : ℚ) / (inputSize.1 : ℚ)
  let scaleY : ℚ := (imgHeight : ℚ) / (inputSize.2 : ℚ)
  (List.range output.numProposals).filterMap fun i =>
    let cx := output.data i
    let cy := output.data (i + output.numProposals)
    let w := output.data (i + output.numProposals * 2)
    let h := output.data (i + output.numProposals * 3)
    let best := bestClassConf output i
    if best.2 < confThreshold then
      none
    else
      let x1 := clampInt (intTrunc ((cx - w / 2) * scaleX)) 0 (imgWidth - 1)
      let y1 := clampInt (intTrunc ((cy - h / 2) * scaleY)) 0 (imgHeight - 1)
      let x2 := clampInt (intTrunc ((cx + w / 2) * scaleX)) 0 (imgWidth - 1)
      let y2 := clampInt (intTrunc ((cy + h / 2) * scaleY)) 0 (imgHeight - 1)
      some { classId := best.1
             className := classNameOf classNames best.1
             confidence := best.2
             box := { x := x1, y := y1, width := x2 - x1, height := y2 - y1 } }

/-- The non-strict order that `std::sort` with comparator
`a.confidence > b.confidence` establishes on the sorted output: every earlier
element has confidence at least that of every later one. -/
def confGE (a b : Detection) : Prop := b.confidence ≤ a.confidence

instance : DecidableRel confGE :=
  fun a b => inferInstanceAs (Decidable (b.confidence ≤ a.confidence))

instance : IsTotal Detection confGE :=
  ⟨fun a b => le_total b.confidence a.confidence⟩

instance : IsTrans Detection confGE :=
  ⟨fun _ _ _ h1 h2 => le_trans h2 h1⟩

/-- The float test `iou > iouThreshold` of `Detector::nms` (detector.cpp line
210): comparison with NaN (`none`) is false. -/
def iouAbove (iou : Option ℚ) (t : ℚ) : Bool :=
  match iou with
  | some v => decide (t < v)
  | none => false

/-- One suppression test of `Detector::nms` (detector.cpp lines 206-212): a
later detection `e` is suppressed by an earlier unsuppressed detection `d`
iff they have the same class and `IoU(d.box, e.box) > iouThreshold`. -/
def suppresses (iouThreshold : ℚ) (d e : Detection) : Bool :=
  decide (d.classId = e.classId) && iouAbove (calculateIoU d.box e.box) iouThreshold

/-- The suppression loop of `Detector::nms` (detector.cpp lines 198-224) on
the sorted list.  In the loop, element `j` ends up suppressed iff some
earlier element `i` that itself stayed unsuppressed suppresses it; `kept`
accumulates exactly the earlier unsuppressed elements, and the `remove_if`
erase keeps the unsuppressed elements in order. -/
def nmsAcc (iouThreshold : ℚ) (kept : List Detection) : List Detection → List Detection
  | [] => []
  | e :: rest =>
      if kept.any (fun d => suppresses iouThreshold d e) then
        nmsAcc iouThreshold kept rest
      else
        e :: nmsAcc iouThreshold (kept ++ [e]) rest

/-- Model of `Detector::nms` (detector.cpp lines 191-225): sort by descending
confidence, then greedy same-class suppression. -/
def nms (iouThreshold : ℚ) (detections : List Detection) : List Detection :=
  nmsAcc iouThreshold [] (List.insertionSort confGE detections)

/-- The face of a `cv::Mat` frame that this pipeline inspects: column count,
row count, and `cv::Mat::empty()`. -/
structure Img where
  cols : ℤ
  rows : ℤ
  isEmpty : Bool
deriving DecidableEq, Repr

/-- The `Detector` state read or written by `Detector::detect`
(detector.h). -/
structure DetectorState where
  initialized : Bool
  inferenceTimeMs : ℚ
  inputSize : ℤ × ℤ
  confThreshold : ℚ
  iouThreshold : ℚ
  classNames : List String
deriving DecidableEq, Repr

/-- Model of `Detector::detect` (detector.cpp lines 102-129).  The network and the
clock are external: the raw output tensor and the measured wall-clock
duration enter as arguments.  When the detector is not initialized or the
frame is empty, the function returns an empty list and leaves the state
(including `inferenceTimeMs`) untouched; otherwise it decodes, applies NMS,
and records the elapsed time. -/
def detect (st : DetectorState) (frame : Img) (rawOut : RawOut) (elapsedMs : ℚ) :
    List Detection × DetectorState :=
  if !st.initialized || frame.isEmpty then ([], st)
  else
    (nms st.iouThreshold
       (postprocess st.inputSize st.confThreshold st.classNames rawOut frame.cols frame.rows),
     { st with inferenceTimeMs := elapsedMs })

/-- The `getline` loop of `Detector::loadClassNames` (detector.cpp lines
67-73), applied to the file contents already split into lines: every
non-empty line is appended, in file order. -/
def loadLinesLoop (classNames : List String) : List String → List String
  | [] => classNames
  | line :: rest =>
      if line.isEmpty then loadLinesLoop classNames rest
      else loadLinesLoop (classNames ++ [line]) rest

/-- Model of `Detector::loadClassNames` on an opened file: start from the cleared
list.  (When the file cannot be opened the method returns `false` before
clearing, and the caller keeps the previous — initially empty — list.) -/
def loadClassNames (fileLines : List String) : List String :=
  loadLinesLoop [] fileLines

/-- Prefix test on character lists: the needle is an initial segment of the
haystack.  Used to state what an exact prefix match on the request line
would be. -/
def startsWithL : List Char → List Char → Bool
  | _, [] => true
  | [], _ :: _ => false
  | c :: cs, p :: ps => c == p && startsWithL cs ps

/-- Model of `std::string::find(pat) != std::string::npos`: the needle occurs as a
contiguous substring anywhere in the haystack (an empty needle is found at
position 0). -/
def containsL : List Char → List Char → Bool
  | [], p => p.isEmpty
  | c :: rest, p => startsWithL (c :: rest) p || containsL rest p

/-- The four routes of `HttpServer::serverLoop` plus the 404 fallback. -/
inductive Route where
  | videoFeed
  | apiDetections
  | apiStatus
  | health
  | notFound
deriving DecidableEq, Repr

/-- The routing chain of `HttpServer::serverLoop` (http_server.cpp lines
246-361): four `requestLine.find(...) != npos` tests in program order, 404
otherwise.  The request line is the part of the request before the first
CRLF. -/
def routeOf (line : List Char) : Route :=
  if containsL line ("GET /video_feed".toList) then .videoFeed
  else if containsL line ("GET /api/detections".toList) then .apiDetections
  else if containsL line ("GET /api/status".toList) then .apiStatus
  else if containsL line ("GET /health".toList) then .health
  else .notFound

/-- Status line and Content-Type sent for each route (http_server.cpp lines
253-257, 308-313, 325-330, 342-347, 355-359). -/
def routeResponseHead : Route → String × String
  | .videoFeed => ("200 OK", "multipart/x-mixed-replace; boundary=frame")
  | .apiDetections => ("200 OK", "application/json")
  | .apiStatus => ("200 OK", "application/json")
  | .health => ("200 OK", "application/json")
  | .notFound => ("404 Not Found", "text/plain")

/-- The `running` flag of `HttpServer` (http_server.h), the only state that
`start` and the failure paths of `serverLoop` interact with. -/
structure ServerCtl where
  running : Bool
deriving DecidableEq, Repr

/-- Model of `HttpServer::start` (http_server.cpp lines 25-36): returns `false` only
when the server is already running; otherwise it sets `running := true`,
spawns the server thread and returns `true`.  The spawned thread has not yet
attempted socket creation, bind or listen when `start` returns, so the
return value cannot depend on their outcomes. -/
def serverStart (s : ServerCtl) : Bool × ServerCtl :=
  if s.running then (false, s) else (true, { running := true })

/-- The initialization part of `HttpServer::serverLoop` (http_server.cpp
lines 155-196): the accept loop is entered iff socket creation, setsockopt,
bind and listen all succeed, in that order. -/
def acceptLoopEntered (socketOk sockoptOk bindOk listenOk : Bool) : Bool :=
  socketOk && sockoptOk && bindOk && listenOk

/-- The effect of the `serverLoop` thread on the server control state: on any
initialization failure it sets `running := false` and returns (the thread
ends); otherwise it runs the accept loop. -/
def serverLoopThread (s : ServerCtl) (socketOk sockoptOk bindOk listenOk : Bool) : ServerCtl :=
  if acceptLoopEntered socketOk sockoptOk bindOk listenOk then s
  else { running := false }

/-- The HTTP-server phase of `main` (main.cpp lines 173-184): `initialize`
always returns `true`; the process exits with code 1 iff `start` returns
`false`; otherwise `main` proceeds into the pipeline loop (`none`). -/
def mainServerPhaseExit (s : ServerCtl) : Option ℕ :=
  if (serverStart s).1 then none else some 1

/-- Model of `cv::VideoCapture` over a video file: a fixed frame list and a read
position (`CAP_PROP_POS_FRAMES`). -/
structure VideoCap where
  frames : List Img
  pos : ℕ
deriving DecidableEq, Repr

/-- Model of `cv::VideoCapture::read` on a file: deliver the frame at the current
position and advance, or fail at end of stream. -/
def vcRead (vc : VideoCap) : Option Img × VideoCap :=
  match vc.frames[vc.pos]? with
  | some f => (some f, { vc with pos := vc.pos + 1 })
  | none => (none, vc)

/-- Model of the seek `capture.set(cv::CAP_PROP_POS_FRAMES, 0)` (camera.cpp line 177). -/
def vcSeekStart (vc : VideoCap) : VideoCap := { vc with pos := 0 }

/-- The `Camera` state touched by `Camera::captureFrame` (camera.h). -/
structure CameraState where
  capture : VideoCap
  currentFrame : Option Img
  opened : Bool
  usingFile : Bool
deriving DecidableEq, Repr

/-- The tail of `Camera::captureFrame` after a successful read (camera.cpp
lines 192-207): an empty frame is a failure; otherwise the frame is cloned
into `currentFrame` and the call succeeds. -/
def captureFinish (cam : CameraState) (cap : VideoCap) (f : Img) :
    Bool × Option Img × CameraState :=
  if f.isEmpty then (false, some f, { cam with capture := cap })
  else (true, some f, { cam with capture := cap, currentFrame := some f })

/-- Model of `Camera::captureFrame` (camera.cpp lines 158-208): fail if not opened;
read once; on a failed read of a file source, seek to frame 0 and retry
exactly once; a second failure (or a camera-source failure) is reported as a
read failure. -/
def captureFrame (cam : CameraState) : Bool × Option Img × CameraState :=
  if !cam.opened then (false, none, cam)
  else
    match vcRead cam.capture with
    | (some f, cap1) => captureFinish cam cap1 f
    | (none, cap1) =>
        if cam.usingFile then
          match vcRead (vcSeekStart cap1) with
          | (some f, cap2) => captureFinish cam cap2 f
          | (none, cap2) => (false, none, { cam with capture := cap2 })
        else (false, none, { cam with capture := cap1 })

/-- The camera state after `n` successive `captureFrame` calls. -/
def camSteps (cam : CameraState) : ℕ → CameraState
  | 0 => cam
  | n + 1 => (captureFrame (camSteps cam n)).2.2

/-- A file-backed camera over `frames`, positioned at frame `p`. -/
def fileCam (frames : List Img) (p : ℕ) : CameraState :=
  { capture := { frames := frames, pos := p }
    currentFrame := none
    opened := true
    usingFile := true }

/-- Concrete raw tensor: one proposal, one class, centre (50,50), size 20×10,
score 0.9. -/
def rawPos : RawOut :=
  { numProposals := 1
    numValues := 5
    data := fun n =>
      if n = 0 then 50 else if n = 1 then 50 else if n = 2 then 20
      else if n = 3 then 10 else if n = 4 then 9 / 10 else 0 }

/-- Concrete raw tensor identical to `rawPos` except that the raw width of
the single proposal is negative (-20), which a float tensor can contain. -/
def rawNeg : RawOut :=
  { numProposals := 1
    numValues := 5
    data := fun n =>
      if n = 0 then 50 else if n = 1 then 50 else if n = 2 then -20
      else if n = 3 then 10 else if n = 4 then 9 / 10 else 0 }

/-- Concrete detection: class 0, confidence 0.1. -/
def detA : Detection := { classId := 0, className := "a", confidence := 1 / 10,
                          box := { x := 0, y := 0, width := 1, height := 1 } }

/-- Concrete detection: class 1, confidence 0.9. -/
def detB : Detection := { classId := 1, className := "b", confidence := 9 / 10,
                          box := { x := 0, y := 0, width := 1, height := 1 } }

/-- Concrete non-empty 640×480 frame. -/
def img0 : Img := { cols := 640, rows := 480, isEmpty := false }

/-- A second concrete non-empty frame, distinguishable from `img0`. -/
def img1 : Img := { cols := 640, rows := 481, isEmpty := false }

/-- The detection decoded from `rawPos` on a 100×100 image with `inputSize`
100×100 and no label file. -/
def detPos : Detection := { classId := 0, className := "0", confidence := 9 / 10,
                            box := { x := 40, y := 45, width := 20, height := 10 } }

/-- A detector state that was never successfully initialized. -/
def stUninit : DetectorState :=
  { initialized := false, inferenceTimeMs := 7, inputSize := (640, 480),
    confThreshold := 1 / 2, iouThreshold := 1 / 2, classNames := [] }

/-- An empty raw output tensor. -/
def rawZero : RawOut := { numProposals := 0, numValues := 0, data := fun _ => 0 }

/-- Concrete detection with a degenerate (zero-size) box, class 3,
confidence 0.9. -/
def detDeg0 : Detection := { classId := 3, className := "deg0", confidence := 9 / 10,
                             box := { x := 0, y := 0, width := 0, height := 0 } }

/-- A second degenerate detection of the same class 3, confidence 0.8. -/
def detDeg1 : Detection := { classId := 3, className := "deg1", confidence := 8 / 10,
                             box := { x := 0, y := 0, width := 0, height := 0 } }

theorem interArea_comm (a b : Rect) : interArea a b = interArea b a := by
  simp only [interArea]
  rw [max_comm a.x, max_comm a.y, min_comm (a.x + a.width), min_comm (a.y + a.height)]

theorem unionArea_comm (a b : Rect) : unionArea a b = unionArea b a := by
  simp only [unionArea]
  rw [interArea_comm, add_comm (a.width * a.height)]

theorem calculateIoU_comm (a b : Rect) : calculateIoU a b = calculateIoU b a := by
  simp only [calculateIoU]
  rw [interArea_comm, unionArea_comm]

/-- Claim C2, counterexample: for the degenerate rectangle (0,0,0,0) compared
with itself the union area is 0 and `calculateIoU` performs the float
division 0/0, i.e. NaN (`none` in the model); it returns neither 0 (required
by the zero-union clause of the claim) nor 1 (required by the
identical-boxes clause, which the same input also triggers). -/
theorem calculateIoU_degenerate_cex :
    unionArea ⟨0, 0, 0, 0⟩ ⟨0, 0, 0, 0⟩ = 0 ∧
    calculateIoU ⟨0, 0, 0, 0⟩ ⟨0, 0, 0, 0⟩ ≠ some 0 ∧
    calculateIoU ⟨0, 0, 0, 0⟩ ⟨0, 0, 0, 0⟩ ≠ some 1 := by decide

/-- Claim C2 (amended): `calculateIoU` is symmetric; it returns 1 on a box
identical to itself when that box has positive width and height; it returns
0 for separated boxes when the first has positive size and the second
non-negative size; and when the union area is 0 the float division yields
NaN/Inf (`none`), not 0. -/
theorem calculateIoU_spec :
    (∀ a b : Rect, calculateIoU a b = calculateIoU b a) ∧
    (∀ a : Rect, 0 < a.width → 0 < a.height → calculateIoU a a = some 1) ∧
    (∀ a b : Rect,
      0 < a.width → 0 < a.height → 0 ≤ b.width → 0 ≤ b.height →
      (a.x + a.width ≤ b.x ∨ b.x + b.width ≤ a.x ∨
        a.y + a.height ≤ b.y ∨ b.y + b.height ≤ a.y) →
      calculateIoU a b = some 0) ∧
    (∀ a b : Rect, unionArea a b = 0 → calculateIoU a b = none) := by
  refine ⟨calculateIoU_comm, ?_, ?_, ?_⟩
  · intro a hw hh
    have hia : interArea a a = a.width * a.height := by
      simp only [interArea, max_self, min_self, add_sub_cancel_left]
      rw [max_eq_right hw.le, max_eq_right hh.le]
    have hu : unionArea a a = a.width * a.height := by
      simp only [unionArea, hia]; ring
    have hpos : 0 < a.width * a.height := mul_pos hw hh
    simp only [calculateIoU, hu, hia]
    rw [if_neg hpos.ne']
    congr 1
    rw [div_self]
    exact_mod_cast hpos.ne'
  · intro a b haw hah hbw hbh hsep
    have hi : interArea a b = 0 := by
      simp only [interArea]
      rcases hsep with h | h | h | h
      · have hx : min (a.x + a.width) (b.x + b.width) - max a.x b.x ≤ 0 := by
          have h1 : min (a.x + a.width) (b.x + b.width) ≤ a.x + a.width := min_le_left _ _
          have h2 : b.x ≤ max a.x b.x := le_max_right _ _
          omega
        rw [max_eq_left hx, zero_mul]
      · have hx : min (a.x + a.width) (b.x + b.width) - max a.x b.x ≤ 0 := by
          have h1 : min (a.x + a.width) (b.x + b.width) ≤ b.x + b.width := min_le_right _ _
          have h2 : a.x ≤ max a.x b.x := le_max_left _ _
          omega
        rw [max_eq_left hx, zero_mul]
      · have hy : min (a.y + a.height) (b.y + b.height) - max a.y b.y ≤ 0 := by
          have h1 : min (a.y + a.height) (b.y + b.height) ≤ a.y + a.height := min_le_left _ _
          have h2 : b.y ≤ max a.y b.y := le_max_right _ _
          omega
        rw [max_eq_left hy, mul_zero]
      · have hy : min (a.y + a.height) (b.y + b.height) - max a.y b.y ≤ 0 := by
          have h1 : min (a.y + a.height) (b.y + b.height) ≤ b.y + b.height := min_le_right _ _
          have h2 : a.y ≤ max a.y b.y := le_max_left _ _
          omega
        rw [max_eq_left hy, mul_zero]
    have hu : unionArea a b ≠ 0 := by
      simp only [unionArea, hi, sub_zero]
      have h1 : 0 < a.width * a.height := mul_pos haw hah
      have h2 : 0 ≤ b.width * b.height := mul_nonneg hbw hbh
      exact ne_of_gt (by linarith)
    simp only [calculateIoU, hi]
    rw [if_neg hu]
    simp
  · intro a b h
    simp only [calculateIoU]
    rw [if_pos h]

/-- Witness for `calculateIoU_spec` at concrete rectangles. -/
theorem calculateIoU_spec_witness :
    calculateIoU ⟨0, 0, 2, 3⟩ ⟨0, 0, 2, 3⟩ = some 1 ∧
    calculateIoU ⟨0, 0, 1, 1⟩ ⟨5, 5, 1, 1⟩ = some 0 ∧
    calculateIoU ⟨1, 2, 0, 0⟩ ⟨1, 2, 0, 0⟩ = none :=
  ⟨calculateIoU_spec.2.1 ⟨0, 0, 2, 3⟩ (by decide) (by decide),
   calculateIoU_spec.2.2.1 ⟨0, 0, 1, 1⟩ ⟨5, 5, 1, 1⟩ (by decide) (by decide) (by decide)
     (by decide) (Or.inl (by decide)),
   calculateIoU_spec.2.2.2 ⟨1, 2, 0, 0⟩ ⟨1, 2, 0, 0⟩ (by decide)⟩

theorem intTrunc_mono {a b : ℚ} (h : a ≤ b) : intTrunc a ≤ intTrunc b := by
  simp only [intTrunc]
  by_cases ha : 0 ≤ a
  · rw [if_pos ha, if_pos (le_trans ha h)]
    exact Int.floor_le_floor h
  · by_cases hb : 0 ≤ b
    · rw [if_neg ha, if_pos hb]
      have h1 : ⌈a⌉ ≤ 0 := by
        have := Int.ceil_le_ceil (le_of_lt (lt_of_not_le ha))
        simpa using this
      exact le_trans h1 (Int.floor_nonneg.mpr hb)
    · rw [if_neg ha, if_neg hb]
      exact Int.ceil_le_ceil h

theorem clampInt_nonneg (v hi : ℤ) : 0 ≤ clampInt v 0 hi := le_max_left 0 _

theorem clampInt_le_of_nonneg (v : ℤ) {W : ℤ} (hW : 0 ≤ W) : clampInt v 0 (W - 1) ≤ W :=
  max_le hW (le_trans (min_le_right _ _) (by omega))

theorem clampInt_mono {v₁ v₂ : ℤ} (lo hi : ℤ) (h : v₁ ≤ v₂) :
    clampInt v₁ lo hi ≤ clampInt v₂ lo hi :=
  max_le_max le_rfl (min_le_min h le_rfl)

/-- Claim C1, counterexample: for an image of size 100×100, input size
100×100 and confidence threshold 1/2, the raw proposal
`(cx, cy, w, h) = (50, 50, -20, 10)` with score 0.9 survives the confidence
gate, its corner order inverts (`x1 = 60 > 40 = x2`), the per-corner clamp
leaves both corners inside the image, and the produced box has negative
width — refuting `w ≥ 0` for arbitrary raw proposal floats. -/
theorem postprocess_negative_width_cex :
    (postprocess (100, 100) (1 / 2) [] rawNeg 100 100).any
      (fun d => decide (d.box.width < 0)) = true := by with_unfolding_all decide

/-- Claim C1 (amended): the clamp invariant holds for every detection
returned by `postprocess` on a `W×H` image — `0 ≤ x`, `0 ≤ y`, `x+w ≤ W`,
`y+h ≤ H`, `w ≥ 0`, `h ≥ 0` — provided the image dimensions are
non-negative, the configured input size is positive, and every proposal's
raw width and height are non-negative. -/
theorem postprocess_box_inside
    (inputSize : ℤ × ℤ) (confThreshold : ℚ) (classNames : List String)
    (output : RawOut) (imgWidth imgHeight : ℤ)
    (hW : 0 ≤ imgWidth) (hH : 0 ≤ imgHeight)
    (hinW : 0 < inputSize.1) (hinH : 0 < inputSize.2)
    (hwnn : ∀ i < output.numProposals, 0 ≤ output.data (i + output.numProposals * 2))
    (hhnn : ∀ i < output.numProposals, 0 ≤ output.data (i + output.numProposals * 3)) :
    ∀ d ∈ postprocess inputSize confThreshold classNames output imgWidth imgHeight,
      0 ≤ d.box.x ∧ 0 ≤ d.box.y ∧
      d.box.x + d.box.width ≤ imgWidth ∧ d.box.y + d.box.height ≤ imgHeight ∧
      0 ≤ d.box.width ∧ 0 ≤ d.box.height := by
  intro d hd
  simp only [postprocess, List.mem_filterMap, List.mem_range] at hd
  obtain ⟨i, hi, hfi⟩ := hd
  by_cases hconf : (bestClassConf output i).2 < confThreshold
  · rw [if_pos hconf] at hfi
    exact absurd hfi (by simp)
  · rw [if_neg hconf] at hfi
    obtain rfl := Option.some.inj hfi
    dsimp only
    have hsX : 0 ≤ (imgWidth : ℚ) / (inputSize.1 : ℚ) := by
      apply div_nonneg
      · exact_mod_cast hW
      · exact_mod_cast hinW.le
    have hsY : 0 ≤ (imgHeight : ℚ) / (inputSize.2 : ℚ) := by
      apply div_nonneg
      · exact_mod_cast hH
      · exact_mod_cast hinH.le
    have hwx : output.data i - output.data (i + output.numProposals * 2) / 2 ≤
        output.data i + output.data (i + output.numProposals * 2) / 2 := by
      have := hwnn i hi
      linarith
    have hwy : output.data (i + output.numProposals) -
        output.data (i + output.numProposals * 3) / 2 ≤
        output.data (i + output.numProposals) +
        output.data (i + output.numProposals * 3) / 2 := by
      have := hhnn i hi
      linarith
    have hx12 :
        clampInt (intTrunc ((output.data i - output.data (i + output.numProposals * 2) / 2) *
            ((imgWidth : ℚ) / (inputSize.1 : ℚ)))) 0 (imgWidth - 1) ≤
        clampInt (intTrunc ((output.data i + output.data (i + output.numProposals * 2) / 2) *
            ((imgWidth : ℚ) / (inputSize.1 : ℚ)))) 0 (imgWidth - 1) :=
      clampInt_mono _ _ (intTrunc_mono (mul_le_mul_of_nonneg_right hwx hsX))
    have hy12 :
        clampInt (intTrunc ((output.data (i + output.numProposals) -
            output.data (i + output.numProposals * 3) / 2) *
            ((imgHeight : ℚ) / (inputSize.2 : ℚ)))) 0 (imgHeight - 1) ≤
        clampInt (intTrunc ((output.data (i + output.numProposals) +
            output.data (i + output.numProposals * 3) / 2) *
            ((imgHeight : ℚ) / (inputSize.2 : ℚ)))) 0 (imgHeight - 1) :=
      clampInt_mono _ _ (intTrunc_mono (mul_le_mul_of_nonneg_right hwy hsY))
    have hx0 := clampInt_nonneg (intTrunc ((output.data i -
      output.data (i + output.numProposals * 2) / 2) *
      ((imgWidth : ℚ) / (inputSize.1 : ℚ)))) (imgWidth - 1)
    have hy0 := clampInt_nonneg (intTrunc ((output.data (i + output.numProposals) -
      output.data (i + output.numProposals * 3) / 2) *
      ((imgHeight : ℚ) / (inputSize.2 : ℚ)))) (imgHeight - 1)
    have hxW := clampInt_le_of_nonneg (intTrunc ((output.data i +
      output.data (i + output.numProposals * 2) / 2) *
      ((imgWidth : ℚ) / (inputSize.1 : ℚ)))) hW
    have hyH := clampInt_le_of_nonneg (intTrunc ((output.data (i + output.numProposals) +
      output.data (i + output.numProposals * 3) / 2) *
      ((imgHeight : ℚ) / (inputSize.2 : ℚ)))) hH
    refine ⟨hx0, hy0, ?_, ?_, ?_, ?_⟩ <;> omega

/-- Witness for `postprocess_box_inside`: the single proposal of `rawPos`
decodes to `detPos`, whose box satisfies the clamp invariant on a 100×100
image. -/
theorem postprocess_box_inside_witness :
    0 ≤ detPos.box.x ∧ 0 ≤ detPos.box.y ∧
    detPos.box.x + detPos.box.width ≤ 100 ∧ detPos.box.y + detPos.box.height ≤ 100 ∧
    0 ≤ detPos.box.width ∧ 0 ≤ detPos.box.height :=
  postprocess_box_inside (100, 100) (1 / 2) [] rawPos 100 100 (by decide) (by decide)
    (by decide) (by decide) (by with_unfolding_all decide) (by with_unfolding_all decide)
    detPos (by with_unfolding_all decide)

theorem nmsAcc_sublist (iouThreshold : ℚ) (l : List Detection) :
    ∀ kept, (nmsAcc iouThreshold kept l).Sublist l := by
  induction l with
  | nil => intro kept; simp [nmsAcc]
  | cons e rest ih =>
      intro kept
      by_cases hs : kept.any (fun d => suppresses iouThreshold d e) = true
      · rw [nmsAcc, if_pos hs]
        exact (ih kept).trans (List.sublist_cons_self e rest)
      · rw [nmsAcc, if_neg hs]
        exact (ih (kept ++ [e])).cons₂ e

theorem nmsAcc_unsuppressed (iouThreshold : ℚ) (l : List Detection) :
    ∀ kept,
      (nmsAcc iouThreshold kept l).Pairwise
        (fun a b => suppresses iouThreshold a b = false) ∧
      ∀ b ∈ nmsAcc iouThreshold kept l, ∀ d ∈ kept, suppresses iouThreshold d b = false := by
  induction l with
  | nil => intro kept; exact ⟨List.Pairwise.nil, by simp [nmsAcc]⟩
  | cons e rest ih =>
      intro kept
      by_cases hs : kept.any (fun d => suppresses iouThreshold d e) = true
      · rw [nmsAcc, if_pos hs]
        exact ih kept
      · rw [nmsAcc, if_neg hs]
        have hany : kept.any (fun d => suppresses iouThreshold d e) = false := by
          simpa using hs
        have hke : ∀ d ∈ kept, suppresses iouThreshold d e = false := by
          intro d hd
          have := List.any_eq_false.mp hany d hd
          simpa using this
        refine ⟨List.Pairwise.cons ?_ (ih (kept ++ [e])).1, ?_⟩
        · intro b hb
          exact (ih (kept ++ [e])).2 b hb e (by simp)
        · intro b hb d hd
          rcases List.mem_cons.mp hb with rfl | hb'
          · exact hke d hd
          · exact (ih (kept ++ [e])).2 b hb' d (List.mem_append_left _ hd)

theorem nmsAcc_id (iouThreshold : ℚ) (l : List Detection) :
    ∀ kept, (∀ e ∈ l, ∀ d ∈ kept, d.classId ≠ e.classId) →
      l.Pairwise (fun a b => a.classId ≠ b.classId) →
      nmsAcc iouThreshold kept l = l := by
  induction l with
  | nil => intro kept _ _; rfl
  | cons e rest ih =>
      intro kept hk hp
      have hany : kept.any (fun d => suppresses iouThreshold d e) = false := by
        rw [List.any_eq_false]
        intro d hd
        simp [suppresses, hk e (List.mem_cons_self e rest) d hd]
      rw [nmsAcc, if_neg (by simp [hany])]
      congr 1
      refine ih (kept ++ [e]) ?_ (List.pairwise_cons.mp hp).2
      intro x hx d hd
      rcases List.mem_append.mp hd with hd' | hd'
      · exact hk x (List.mem_cons_of_mem e hx) d hd'
      · rcases List.mem_singleton.mp hd' with rfl
        exact (List.pairwise_cons.mp hp).1 x hx

/-- Claim C3, counterexample: on the two same-class degenerate detections
`[detDeg0, detDeg1]` (both boxes 0×0, so the union area is 0) the float IoU
is the division 0/0 = NaN, `NaN > iouThreshold` is false at detector.cpp
line 210, and both detections are kept — a kept same-class pair whose IoU
is no number at all (`none`), and in particular not ≤ `iouThreshold`. -/
theorem nms_kept_pair_nan_iou_cex :
    nms (1 / 2) [detDeg0, detDeg1] = [detDeg0, detDeg1] ∧
    detDeg0.classId = detDeg1.classId ∧
    calculateIoU detDeg0.box detDeg1.box = none := by with_unfolding_all decide

/-- Claim C3 (amended): the list returned by `Detector::nms` is no longer
than its input, every kept detection is one of the input detections, and
for every pair of kept detections of the same class the suppression test
failed: whenever the IoU of their boxes is an actual number (the union area
is non-zero) it does not exceed `iouThreshold`, in either argument order —
while a same-class pair whose union area is zero has IoU NaN, which the
float comparison never reports as above the threshold, and is kept as
well. -/
theorem nms_output_spec (iouThreshold : ℚ) (detections : List Detection) :
    (nms iouThreshold detections).length ≤ detections.length ∧
    (∀ d ∈ nms iouThreshold detections, d ∈ detections) ∧
    (nms iouThreshold detections).Pairwise (fun a b =>
      a.classId = b.classId →
        (∀ v, calculateIoU a.box b.box = some v → v ≤ iouThreshold) ∧
        (∀ v, calculateIoU b.box a.box = some v → v ≤ iouThreshold)) := by
  have hsub : (nms iouThreshold detections).Sublist
      (List.insertionSort confGE detections) :=
    nmsAcc_sublist iouThreshold (List.insertionSort confGE detections) []
  have hperm := List.perm_insertionSort confGE detections
  refine ⟨?_, ?_, ?_⟩
  · exact le_of_le_of_eq hsub.length_le hperm.length_eq
  · intro d hd
    exact hperm.mem_iff.mp (hsub.subset hd)
  · have hpw := (nmsAcc_unsuppressed iouThreshold
      (List.insertionSort confGE detections) []).1
    refine hpw.imp ?_
    intro a b hab hclass
    have h1 : iouAbove (calculateIoU a.box b.box) iouThreshold = false := by
      simpa [suppresses, hclass] using hab
    constructor
    · intro v hv
      rw [hv] at h1
      exact le_of_not_lt (of_decide_eq_false h1)
    · intro v hv
      rw [calculateIoU_comm b.box a.box] at hv
      rw [hv] at h1
      exact le_of_not_lt (of_decide_eq_false h1)

/-- Claim C4, counterexample: on the two-detection input `[detA, detB]`
(distinct classes, confidences 0.1 and 0.9 in ascending order)
`Detector::nms` first sorts by descending confidence, so it returns
`[detB, detA]`, not the input unchanged. -/
theorem nms_not_identity_cex :
    nms (1 / 2) [detA, detB] = [detB, detA] ∧
    nms (1 / 2) [detA, detB] ≠ [detA, detB] := by with_unfolding_all decide

/-- Claim C4 (amended): `Detector::nms` is the identity on every input whose
detections have pairwise-distinct class ids, provided the input is already
sorted by non-increasing confidence (otherwise the initial sort reorders
it). -/
theorem nms_identity_on_distinct_sorted (iouThreshold : ℚ)
    (detections : List Detection)
    (hsorted : detections.Pairwise (fun a b => b.confidence ≤ a.confidence))
    (hdistinct : detections.Pairwise (fun a b => a.classId ≠ b.classId)) :
    nms iouThreshold detections = detections := by
  unfold nms
  have hsorted' : List.Sorted confGE detections := hsorted
  rw [List.Sorted.insertionSort_eq hsorted']
  exact nmsAcc_id iouThreshold detections [] (by intro e _ d hd; simp at hd) hdistinct

/-- Witness for `nms_identity_on_distinct_sorted` at the concrete sorted
distinct-class input `[detB, detA]`. -/
theorem nms_identity_witness : nms (1 / 2) [detB, detA] = [detB, detA] :=
  nms_identity_on_distinct_sorted (1 / 2) [detB, detA]
    (by with_unfolding_all decide) (by decide)

/-- Claim C9: every detection list produced by `Detector::nms` — and hence
the list returned by `Detector::detect` and published to
`/api/detections` — is sorted in non-increasing order of confidence. -/
theorem nms_sorted_by_confidence :
    (∀ (iouThreshold : ℚ) (detections : List Detection),
      (nms iouThreshold detections).Pairwise fun a b => b.confidence ≤ a.confidence) ∧
    (∀ (st : DetectorState) (frame : Img) (rawOut : RawOut) (elapsedMs : ℚ),
      (detect st frame rawOut elapsedMs).1.Pairwise
        fun a b => b.confidence ≤ a.confidence) := by
  have key : ∀ (t : ℚ) (l : List Detection),
      (nms t l).Pairwise fun a b => b.confidence ≤ a.confidence := by
    intro t l
    have hs : List.Sorted confGE (List.insertionSort confGE l) :=
      List.sorted_insertionSort confGE l
    exact List.Pairwise.sublist (nmsAcc_sublist t (List.insertionSort confGE l) []) hs
  refine ⟨key, ?_⟩
  intro st frame rawOut elapsedMs
  unfold detect
  by_cases h : (!st.initialized || frame.isEmpty) = true
  · rw [if_pos h]
    exact List.Pairwise.nil
  · rw [if_neg h]
    exact key _ _

/-- Claim C10: when the detector was never successfully initialized or the
input frame is empty, `Detector::detect` returns the empty list and leaves
the whole detector state — in particular `inferenceTimeMs` — unchanged. -/
theorem detect_guard_returns_empty (st : DetectorState) (frame : Img)
    (rawOut : RawOut) (elapsedMs : ℚ)
    (h : st.initialized = false ∨ frame.isEmpty = true) :
    detect st frame rawOut elapsedMs = ([], st) := by
  unfold detect
  rcases h with h | h <;> simp [h]

/-- Witness for `detect_guard_returns_empty` at an uninitialized state. -/
theorem detect_guard_witness : detect stUninit img0 rawZero 5 = ([], stUninit) :=
  detect_guard_returns_empty stUninit img0 rawZero 5 (Or.inl rfl)

/-- Claim C6: behaviour of the code at a bind (and a listen) failure.
`HttpServer::start` on a fresh server returns `true` — it spawns the server
thread before that thread attempts socket setup — so `main`'s
`if (!server.start()) return 1` does not fire and the exit code of the
server phase is `none`: the process continues into the pipeline loop.  The
bind or listen failure merely makes the server thread set `running := false`
and terminate itself.  This contradicts the claimed fatal exit with code 1. -/
theorem bindFailure_process_continues :
    (serverStart ⟨false⟩).1 = true ∧
    mainServerPhaseExit ⟨false⟩ = none ∧
    serverLoopThread ⟨true⟩ true true false true = ⟨false⟩ ∧
    serverLoopThread ⟨true⟩ true true true false = ⟨false⟩ ∧
    acceptLoopEntered true true false true = false := by decide

theorem loadLinesLoop_eq (lines : List String) :
    ∀ acc, loadLinesLoop acc lines = acc ++ lines.filter (fun l => !l.isEmpty) := by
  induction lines with
  | nil => intro acc; simp [loadLinesLoop]
  | cons l rest ih =>
      intro acc
      by_cases h : l.isEmpty = true
      · simp [loadLinesLoop, h, ih]
      · simp only [loadLinesLoop, h, if_false, ih, List.filter_cons]
        simp [h]

/-- Claim C8 (amended): label lookup is by position among the *non-blank*
lines (blank lines are skipped, so indices shift past them, they do not
equal raw line numbers): class id `c` renders as the `c`-th non-blank line
when that exists and as the decimal string of `c` otherwise; every loaded
label is a non-blank line of the file. -/
theorem classNameOf_spec (lines : List String) (c : ℕ) :
    (∀ h : c < (lines.filter (fun l => !l.isEmpty)).length,
        classNameOf (loadClassNames lines) c =
          (lines.filter (fun l => !l.isEmpty)).get ⟨c, h⟩) ∧
    ((lines.filter (fun l => !l.isEmpty)).length ≤ c →
        classNameOf (loadClassNames lines) c = toString c) ∧
    (∀ n ∈ loadClassNames lines, n ∈ lines ∧ n ≠ "") := by
  have hload : loadClassNames lines = lines.filter (fun l => !l.isEmpty) := by
    simpa using loadLinesLoop_eq lines []
  refine ⟨?_, ?_, ?_⟩
  · intro h
    rw [hload]
    exact dif_pos h
  · intro h
    rw [hload]
    exact dif_neg (by omega)
  · intro n hn
    rw [hload] at hn
    have hmem := List.mem_filter.mp hn
    refine ⟨hmem.1, ?_⟩
    intro heq
    subst heq
    exact absurd hmem.2 (by decide)

/-- Witness for `classNameOf_spec` on the file `["stop", "", "yield"]`: class
id 1 renders as the second non-blank line, and class id 7 as `"7"`. -/
theorem classNameOf_spec_witness :
    classNameOf (loadClassNames ["stop", "", "yield"]) 1 =
      (["stop", "", "yield"].filter (fun l => !l.isEmpty)).get ⟨1, by decide⟩ ∧
    classNameOf (loadClassNames ["stop", "", "yield"]) 7 = toString 7 :=
  ⟨(classNameOf_spec ["stop", "", "yield"] 1).1 (by decide),
   (classNameOf_spec ["stop", "", "yield"] 7).2.1 (by decide)⟩

/-- Claim C8, counterexample: in the label file with lines
`["stop", "", "yield"]` (line 1, counting from 0, is blank), class id 1
renders as `"yield"`, which is the label on line 2 of the file, not the
label on line 1 — the loaded index does not equal the line number once a
blank line is skipped. -/
theorem classNameOf_line_shift_cex :
    classNameOf (loadClassNames ["stop", "", "yield"]) 1 = "yield" ∧
    ["stop", "", "yield"].getD 1 "" = "" ∧
    ("yield" : String) ≠ "" := by decide

theorem startsWithL_containsL {l p : List Char} (h : startsWithL l p = true) :
    containsL l p = true := by
  cases l with
  | nil =>
      cases p with
      | nil => rfl
      | cons c cs => simp [startsWithL] at h
  | cons c cs => simp [containsL, h]

/-- Claim C5, counterexample: the request line `"XGET /health"` does not
start with `"GET /health"` (it does not even start with `"GET "`), yet the
router serves the health route, because `HttpServer::serverLoop` dispatches
with `std::string::find`, a substring search, not a prefix match. -/
theorem routeOf_substring_cex :
    routeOf ("XGET /health".toList) = Route.health ∧
    startsWithL ("XGET /health".toList) ("GET /health".toList) = false := by decide

/-- Claim C5 (amended): the router tests the four patterns
`"GET /video_feed"`, `"GET /api/detections"`, `"GET /api/status"`,
`"GET /health"` in program order with a *substring* search on the request
line; the first pattern occurring anywhere in the line wins.  Consequently a
line beginning with a pattern is served that route provided no earlier
pattern occurs in the line, a line containing none of the patterns is
routed to the 404 fallback (and conversely), and the fallback response is
`404 Not Found` with Content-Type `text/plain`. -/
theorem routeOf_spec :
    (∀ l, startsWithL l ("GET /video_feed".toList) = true →
        routeOf l = Route.videoFeed) ∧
    (∀ l, containsL l ("GET /video_feed".toList) = false →
        startsWithL l ("GET /api/detections".toList) = true →
        routeOf l = Route.apiDetections) ∧
    (∀ l, containsL l ("GET /video_feed".toList) = false →
        containsL l ("GET /api/detections".toList) = false →
        startsWithL l ("GET /api/status".toList) = true →
        routeOf l = Route.apiStatus) ∧
    (∀ l, containsL l ("GET /video_feed".toList) = false →
        containsL l ("GET /api/detections".toList) = false →
        containsL l ("GET /api/status".toList) = false →
        startsWithL l ("GET /health".toList) = true →
        routeOf l = Route.health) ∧
    (∀ l, routeOf l = Route.notFound ↔
        (containsL l ("GET /video_feed".toList) = false ∧
         containsL l ("GET /api/detections".toList) = false ∧
         containsL l ("GET /api/status".toList) = false ∧
         containsL l ("GET /health".toList) = false)) ∧
    routeResponseHead Route.notFound = ("404 Not Found", "text/plain") := by
  refine ⟨?_, ?_, ?_, ?_, ?_, rfl⟩
  · intro l h
    rw [routeOf, if_pos (startsWithL_containsL h)]
  · intro l h0 h
    rw [routeOf, if_neg (by rw [h0]; decide), if_pos (startsWithL_containsL h)]
  · intro l h0 h1 h
    rw [routeOf, if_neg (by rw [h0]; decide), if_neg (by rw [h1]; decide),
      if_pos (startsWithL_containsL h)]
  · intro l h0 h1 h2 h
    rw [routeOf, if_neg (by rw [h0]; decide), if_neg (by rw [h1]; decide), if_neg (by rw [h2]; decide),
      if_pos (startsWithL_containsL h)]
  · intro l
    rw [routeOf]
    split_ifs with h1 h2 h3 h4 <;> simp_all

/-- Witness for `routeOf_spec` at concrete request lines. -/
theorem routeOf_spec_witness :
    routeOf ("GET /video_feed HTTP/1.1".toList) = Route.videoFeed ∧
    routeOf ("GET /health HTTP/1.1".toList) = Route.health ∧
    routeOf ("POST /index.html HTTP/1.1".toList) = Route.notFound :=
  ⟨routeOf_spec.1 _ (by decide),
   routeOf_spec.2.2.2.1 _ (by decide) (by decide) (by decide) (by decide),
   (routeOf_spec.2.2.2.2.1 _).mpr (by decide)⟩

theorem captureFrame_at_pos (frames : List Img) (p : ℕ) (cf : Option Img)
    (hlt : p < frames.length) (hall : ∀ f ∈ frames, f.isEmpty = false) :
    captureFrame
        { capture := ⟨frames, p⟩, currentFrame := cf, opened := true, usingFile := true } =
      (true, frames[p]?,
        { capture := ⟨frames, p + 1⟩, currentFrame := frames[p]?,
          opened := true, usingFile := true }) := by
  have hsome : frames[p]? = some frames[p] := List.getElem?_eq_getElem hlt
  have hemp : frames[p].isEmpty = false := hall _ (List.getElem_mem hlt)
  simp [captureFrame, vcRead, captureFinish, hsome, hemp]

theorem captureFrame_at_end (frames : List Img) (p : ℕ) (cf : Option Img)
    (hge : frames.length ≤ p) (hne0 : frames ≠ [])
    (hall : ∀ f ∈ frames, f.isEmpty = false) :
    captureFrame
        { capture := ⟨frames, p⟩, currentFrame := cf, opened := true, usingFile := true } =
      (true, frames[0]?,
        { capture := ⟨frames, 1⟩, currentFrame := frames[0]?,
          opened := true, usingFile := true }) := by
  have h0 : 0 < frames.length := List.length_pos.mpr hne0
  have hnone : frames[p]? = none := List.getElem?_eq_none hge
  have hsome : frames[0]? = some frames[0] := List.getElem?_eq_getElem h0
  have hemp : frames[0].isEmpty = false := hall _ (List.getElem_mem h0)
  simp [captureFrame, vcRead, vcSeekStart, captureFinish, hnone, hsome, hemp]

theorem camSteps_fileCam (frames : List Img)
    (hall : ∀ f ∈ frames, f.isEmpty = false) :
    ∀ k, k ≤ frames.length → ∃ cf, camSteps (fileCam frames 0) k =
      { capture := ⟨frames, k⟩, currentFrame := cf, opened := true, usingFile := true } := by
  intro k
  induction k with
  | zero => intro _; exact ⟨none, rfl⟩
  | succ k ih =>
      intro hk
      obtain ⟨cf, hstate⟩ := ih (Nat.le_of_succ_le hk)
      refine ⟨frames[k]?, ?_⟩
      rw [camSteps, hstate, captureFrame_at_pos frames k cf (Nat.lt_of_succ_le hk) hall]

/-- Claim C7: on a file-backed source whose file holds at least one
(non-empty) frame, `Camera::captureFrame` succeeds on every call: on an
end-of-stream read failure it seeks to frame 0 and retries once, so after
`N` reads consumed all `N` frames, the `(N+1)`-th read returns frame 0 and
not a failure.  A read failure is reported by a file source with readable
frames only when even the post-seek retry delivers nothing (an empty
file). -/
theorem fileSource_loop_spec (frames : List Img) (hne0 : frames ≠ [])
    (hall : ∀ f ∈ frames, f.isEmpty = false) :
    (∀ cam : CameraState, cam.opened = true → cam.usingFile = true →
        cam.capture.frames = frames → (captureFrame cam).1 = true) ∧
    (captureFrame (camSteps (fileCam frames 0) frames.length)).2.1 = frames.head? ∧
    (∀ cam : CameraState, cam.opened = true → cam.usingFile = true →
        (∀ f ∈ cam.capture.frames, f.isEmpty = false) →
        (captureFrame cam).1 = false →
        (vcRead (vcSeekStart cam.capture)).1 = none) := by
  refine ⟨?_, ?_, ?_⟩
  · intro cam hop huf hfr
    obtain ⟨⟨fr, p⟩, cf, op, uf⟩ := cam
    dsimp at hop huf hfr
    subst hop
    subst huf
    subst hfr
    rcases Nat.lt_or_ge p fr.length with h | h
    · rw [captureFrame_at_pos fr p cf h hall]
    · rw [captureFrame_at_end fr p cf h hne0 hall]
  · obtain ⟨cf, hstate⟩ := camSteps_fileCam frames hall frames.length le_rfl
    rw [hstate, captureFrame_at_end frames frames.length cf le_rfl hne0 hall]
    obtain ⟨a, t, rfl⟩ := List.exists_cons_of_ne_nil hne0
    simp
  · intro cam hop huf hfr hfail
    obtain ⟨⟨fr, p⟩, cf, op, uf⟩ := cam
    dsimp at hop huf hfr
    subst hop
    subst huf
    by_cases h : p < fr.length
    · rw [captureFrame_at_pos fr p cf h hfr] at hfail
      exact absurd hfail (by simp)
    · by_cases h0 : fr = []
      · subst h0
        simp [vcRead, vcSeekStart]
      · rw [captureFrame_at_end fr p cf (Nat.le_of_not_lt h) h0 hfr] at hfail
        exact absurd hfail (by simp)

/-- Witness for `fileSource_loop_spec`: a two-frame file delivers frame 0 on
the third read. -/
theorem fileSource_loop_witness :
    (captureFrame (camSteps (fileCam [img0, img1] 0) [img0, img1].length)).2.1 =
      [img0, img1].head? :=
  (fileSource_loop_spec [img0, img1] (by decide) (by decide)).2.1
